import Mathlib

/-!
Verification of the derived-quantity pipeline of `analyze_points.py`
(repository 2024_dynasun_mps_fsi).

The script reads per-event CSV tables of digitized points, drops rows whose
raw latitude field contains the empty-bracket marker, parses the bracketed
coordinate strings, converts each observation to a polar angle and radius,
computes an angular width (with a wraparound correction at the branch cut),
a height in solar radii, finite-difference speed and d(aw)/dh series, and
finally a cross-event "fit of fits".

Real-valued quantities are modelled over `ℝ` (the Python code uses IEEE
doubles; we verify the real-number algorithm).  String fields are modelled
as `List Char`.  Timestamps are modelled as integer nanoseconds, mirroring
the `datetime64[ns]` representation used by pandas.
-/

namespace AnalyzePoints

/-- Solar radius in meters, the constant `solar_rad_in_m` of the script. -/
noncomputable def solar_rad_in_m : ℝ := 6.957e8

/-- Quadrant-aware polar angle, modelling `np.arctan2 y x` on reals:
`arctan (y/x)` corrected by quadrant, with value in `(-π, π]`
(and `atan2 0 0 = 0`). -/
noncomputable def atan2 (y x : ℝ) : ℝ :=
  if 0 < x then Real.arctan (y / x)
  else if x < 0 ∧ 0 ≤ y then Real.arctan (y / x) + Real.pi
  else if x < 0 ∧ y < 0 then Real.arctan (y / x) - Real.pi
  else if x = 0 ∧ 0 < y then Real.pi / 2
  else if x = 0 ∧ y < 0 then -(Real.pi / 2)
  else 0

/-- The angular-width branch of the per-row loop (lines 61-68 of
`analyze_points.py`), as a function of the two edge polar angles
`all_phi[0]` and `all_phi[2]`:
if the product is positive, `|phi0 - phi2| * 180 / pi`; otherwise
`abs_sum = |(|phi2| + |phi0|)|`, with the wraparound correction
`|abs_sum - 2*pi| * 180 / pi` when `abs_sum > pi` and
`abs_sum * 180 / pi` otherwise. -/
noncomputable def aw_of_phi (phi0 phi2 : ℝ) : ℝ :=
  if 0 < phi0 * phi2 then
    |phi0 - phi2| * 180 / Real.pi
  else
    if Real.pi < abs (abs phi2 + abs phi0) then
      abs (abs (abs phi2 + abs phi0) - 2 * Real.pi) * 180 / Real.pi
    else
      abs (abs phi2 + abs phi0) * 180 / Real.pi

/-- Angular width of a parsed observation: the polar angles of the two
edge points are computed with `atan2` (line 58, `all_phi`), and the
branch structure of lines 61-68 is applied to `all_phi[0]` and
`all_phi[2]`. -/
noncomputable def angular_width (lat lon : Fin 3 → ℝ) : ℝ :=
  aw_of_phi (atan2 (lat 0) (lon 0)) (atan2 (lat 2) (lon 2))

/-- Degree-to-radian conversion, `np.deg2rad`. -/
noncomputable def deg2rad (x : ℝ) : ℝ := x * (Real.pi / 180)

/-- Per-point radius `all_r = np.sqrt (all_lat**2 + all_lon**2)` (line 59). -/
noncomputable def all_r (lat lon : Fin 3 → ℝ) (i : Fin 3) : ℝ :=
  Real.sqrt (lat i ^ 2 + lon i ^ 2)

/-- Height in solar radii as a function of the center-point radius `r1`
(arcseconds) and `dsun` (meters):
`np.deg2rad (r1 / 3600) * dsun / solar_rad_in_m` (line 71). -/
noncomputable def h_rsun_of_r (r1 dsun : ℝ) : ℝ :=
  deg2rad (r1 / 3600) * dsun / solar_rad_in_m

/-- Height of an observation: line 71 applied to `all_r[1]`. -/
noncomputable def h_rsun (lat lon : Fin 3 → ℝ) (dsun : ℝ) : ℝ :=
  h_rsun_of_r (all_r lat lon 1) dsun

/-! Range facts about `atan2`. -/

lemma arctan_nonpos_of (z : ℝ) (hz : z ≤ 0) : Real.arctan z ≤ 0 := by
  have h := Real.arctan_strictMono.monotone hz
  rwa [Real.arctan_zero] at h

lemma arctan_nonneg_of (z : ℝ) (hz : 0 ≤ z) : 0 ≤ Real.arctan z := by
  have h := Real.arctan_strictMono.monotone hz
  rwa [Real.arctan_zero] at h

lemma atan2_le_pi (y x : ℝ) : atan2 y x ≤ Real.pi := by
  have h1 := Real.arctan_lt_pi_div_two (y / x)
  have h2 := Real.neg_pi_div_two_lt_arctan (y / x)
  have hp := Real.pi_pos
  unfold atan2
  split_ifs with c1 c2 c3 c4 c5
  · linarith
  · have hyx : y / x ≤ 0 := div_nonpos_iff.mpr (Or.inl ⟨c2.2, c2.1.le⟩)
    have := arctan_nonpos_of (y / x) hyx
    linarith
  · linarith
  · linarith
  · linarith
  · linarith

lemma neg_pi_lt_atan2 (y x : ℝ) : -Real.pi < atan2 y x := by
  have h1 := Real.arctan_lt_pi_div_two (y / x)
  have h2 := Real.neg_pi_div_two_lt_arctan (y / x)
  have hp := Real.pi_pos
  unfold atan2
  split_ifs with c1 c2 c3 c4 c5
  · linarith
  · linarith
  · have hyx : 0 < y / x := div_pos_iff.mpr (Or.inr ⟨c3.2, c3.1⟩)
    have h3 := Real.arctan_strictMono hyx
    rw [Real.arctan_zero] at h3
    linarith
  · linarith
  · linarith
  · linarith

lemma abs_atan2_le_pi (y x : ℝ) : |atan2 y x| ≤ Real.pi :=
  abs_le.mpr ⟨(neg_pi_lt_atan2 y x).le, atan2_le_pi y x⟩

/-! Helper facts about the degree conversion and the branch arithmetic. -/

lemma scale180 {a : ℝ} (ha : 0 ≤ a) (hpi : a ≤ Real.pi) :
    0 ≤ a * 180 / Real.pi ∧ a * 180 / Real.pi ≤ 180 := by
  constructor
  · positivity
  · rw [div_le_iff₀ Real.pi_pos]
    nlinarith [Real.pi_pos]

lemma aw_of_phi_range {phi0 phi2 : ℝ} (h0 : |phi0| ≤ Real.pi) (h2 : |phi2| ≤ Real.pi) :
    0 ≤ aw_of_phi phi0 phi2 ∧ aw_of_phi phi0 phi2 ≤ 180 := by
  obtain ⟨h0l, h0r⟩ := abs_le.mp h0
  obtain ⟨h2l, h2r⟩ := abs_le.mp h2
  have hs : (0 : ℝ) ≤ abs phi2 + abs phi0 := by positivity
  unfold aw_of_phi
  split_ifs with c1 c2
  · rcases mul_pos_iff.mp c1 with ⟨hp0, hp2⟩ | ⟨hn0, hn2⟩
    · exact scale180 (abs_nonneg _) (abs_le.mpr ⟨by linarith, by linarith⟩)
    · exact scale180 (abs_nonneg _) (abs_le.mpr ⟨by linarith, by linarith⟩)
  · rw [abs_of_nonneg hs] at c2 ⊢
    have habs0 := abs_le.mp (abs_le.mpr ⟨h0l, h0r⟩)
    have h2pi : abs phi2 + abs phi0 ≤ 2 * Real.pi := by
      have := abs_le.mpr ⟨h0l, h0r⟩
      have := abs_le.mpr ⟨h2l, h2r⟩
      linarith
    rw [abs_of_nonpos (by linarith : abs phi2 + abs phi0 - 2 * Real.pi ≤ 0)]
    exact scale180 (by linarith) (by linarith)
  · rw [abs_of_nonneg hs] at c2 ⊢
    exact scale180 hs (not_lt.mp c2)

lemma angular_width_range_aux (lat lon : Fin 3 → ℝ) :
    0 ≤ angular_width lat lon ∧ angular_width lat lon ≤ 180 :=
  aw_of_phi_range (abs_atan2_le_pi _ _) (abs_atan2_le_pi _ _)

/-- Claim C9: for every parsed 3-point angle triple (any sign combination of
the edge polar angles), the angular width produced by the per-row computation
satisfies `0 ≤ angular_width ≤ 180` degrees. -/
theorem C9_angular_width_invariant (lat lon : Fin 3 → ℝ) :
    0 ≤ angular_width lat lon ∧ angular_width lat lon ≤ 180 :=
  angular_width_range_aux lat lon

/-- Witness for C9 at a concrete observation. -/
theorem C9_angular_width_invariant_witness :
    0 ≤ angular_width (fun _ => 1) (fun _ => 0) ∧
      angular_width (fun _ => 1) (fun _ => 0) ≤ 180 :=
  C9_angular_width_invariant (fun _ => 1) (fun _ => 0)

/-- Claim C1: when the two parsed edge polar angles have the same sign, the
angular width is `|phi_0 - phi_2|` converted to degrees. -/
theorem C1_angular_width_same_sign (lat lon : Fin 3 → ℝ)
    (hsame : (0 < atan2 (lat 0) (lon 0) ∧ 0 < atan2 (lat 2) (lon 2)) ∨
             (atan2 (lat 0) (lon 0) < 0 ∧ atan2 (lat 2) (lon 2) < 0)) :
    angular_width lat lon =
      |atan2 (lat 0) (lon 0) - atan2 (lat 2) (lon 2)| * 180 / Real.pi := by
  have hpos : 0 < atan2 (lat 0) (lon 0) * atan2 (lat 2) (lon 2) := by
    rcases hsame with ⟨ha, hb⟩ | ⟨ha, hb⟩
    · exact mul_pos ha hb
    · exact mul_pos_of_neg_of_neg ha hb
  unfold angular_width aw_of_phi
  rw [if_pos hpos]

/-! Concrete evaluations of `atan2`, used by the witnesses. -/

lemma atan2_pos_y (y : ℝ) (hy : 0 < y) : atan2 y 0 = Real.pi / 2 := by
  unfold atan2
  rw [if_neg (by norm_num), if_neg (by norm_num), if_neg (by norm_num),
    if_pos ⟨rfl, hy⟩]

lemma atan2_pos_x (y x : ℝ) (hx : 0 < x) : atan2 y x = Real.arctan (y / x) := by
  unfold atan2
  rw [if_pos hx]

lemma atan2_one_zero_pos : 0 < atan2 1 0 := by
  rw [atan2_pos_y 1 one_pos]
  positivity

/-- Witness for C1: both edge points on the positive-latitude axis, both
polar angles equal to `pi / 2`. -/
theorem C1_angular_width_same_sign_witness :
    ((0 < atan2 ((fun _ : Fin 3 => (1 : ℝ)) 0) ((fun _ : Fin 3 => (0 : ℝ)) 0) ∧
        0 < atan2 ((fun _ : Fin 3 => (1 : ℝ)) 2) ((fun _ : Fin 3 => (0 : ℝ)) 2)) ∨
      (atan2 ((fun _ : Fin 3 => (1 : ℝ)) 0) ((fun _ : Fin 3 => (0 : ℝ)) 0) < 0 ∧
        atan2 ((fun _ : Fin 3 => (1 : ℝ)) 2) ((fun _ : Fin 3 => (0 : ℝ)) 2) < 0)) ∧
    angular_width (fun _ => 1) (fun _ => 0) =
      |atan2 (1 : ℝ) 0 - atan2 (1 : ℝ) 0| * 180 / Real.pi := by
  refine ⟨Or.inl ⟨atan2_one_zero_pos, atan2_one_zero_pos⟩, ?_⟩
  exact C1_angular_width_same_sign (fun _ => 1) (fun _ => 0)
    (Or.inl ⟨atan2_one_zero_pos, atan2_one_zero_pos⟩)

/-- Claim C2: with opposite-sign edge polar angles the else-branch is taken:
for `s = |phi_0| + |phi_2|`, the width is `|s - 2*pi|` in degrees when
`s > pi` (and then lies in `[0, 180]`), and `s` in degrees otherwise. -/
theorem C2_angular_width_wraparound (lat lon : Fin 3 → ℝ)
    (hopp : atan2 (lat 0) (lon 0) * atan2 (lat 2) (lon 2) < 0) :
    (Real.pi < |atan2 (lat 0) (lon 0)| + |atan2 (lat 2) (lon 2)| →
      angular_width lat lon =
        |(|atan2 (lat 0) (lon 0)| + |atan2 (lat 2) (lon 2)|) - 2 * Real.pi| *
          180 / Real.pi ∧
      0 ≤ angular_width lat lon ∧ angular_width lat lon ≤ 180) ∧
    (|atan2 (lat 0) (lon 0)| + |atan2 (lat 2) (lon 2)| ≤ Real.pi →
      angular_width lat lon =
        (|atan2 (lat 0) (lon 0)| + |atan2 (lat 2) (lon 2)|) * 180 / Real.pi) := by
  have hno : ¬ 0 < atan2 (lat 0) (lon 0) * atan2 (lat 2) (lon 2) :=
    not_lt.mpr hopp.le
  have hsum : (0 : ℝ) ≤ |atan2 (lat 2) (lon 2)| + |atan2 (lat 0) (lon 0)| := by
    positivity
  have hcomm : |atan2 (lat 2) (lon 2)| + |atan2 (lat 0) (lon 0)| =
      |atan2 (lat 0) (lon 0)| + |atan2 (lat 2) (lon 2)| := add_comm _ _
  constructor
  · intro hgt
    have hrange := angular_width_range_aux lat lon
    refine ⟨?_, hrange.1, hrange.2⟩
    unfold angular_width aw_of_phi
    rw [if_neg hno, abs_of_nonneg hsum, hcomm, if_pos hgt]
  · intro hle
    unfold angular_width aw_of_phi
    rw [if_neg hno, abs_of_nonneg hsum, hcomm, if_neg (not_lt.mpr hle)]

/-! Concrete atan2 values on the diagonals, for the C2 witness. -/

lemma atan2_one_neg_one : atan2 1 (-1) = 3 * Real.pi / 4 := by
  have h : atan2 1 (-1) = Real.arctan (1 / (-1)) + Real.pi := by
    unfold atan2
    rw [if_neg (by norm_num), if_pos (by norm_num)]
  rw [h, show (1 : ℝ) / (-1) = -1 by norm_num, show (-1 : ℝ) = -(1 : ℝ) by norm_num,
    Real.arctan_neg, Real.arctan_one]
  ring

lemma atan2_neg_one_neg_one : atan2 (-1) (-1) = -(3 * Real.pi / 4) := by
  have h : atan2 (-1) (-1) = Real.arctan ((-1) / (-1)) - Real.pi := by
    unfold atan2
    rw [if_neg (by norm_num), if_neg (by norm_num), if_pos (by norm_num)]
  rw [h, show ((-1) : ℝ) / (-1) = 1 by norm_num, Real.arctan_one]
  ring

/-- The C2 witness observation: edge latitudes `1` and `-1`, both longitudes
`-1`, giving polar angles `3*pi/4` and `-3*pi/4`. -/
noncomputable def latB : Fin 3 → ℝ := fun i => if i = 0 then 1 else if i = 2 then -1 else 0

/-- Longitudes of the C2 witness observation. -/
noncomputable def lonB : Fin 3 → ℝ := fun _ => -1

lemma latB_zero : latB 0 = 1 := by
  unfold latB
  rw [if_pos rfl]

lemma latB_two : latB 2 = -1 := by
  unfold latB
  rw [if_neg (by decide), if_pos rfl]

/-- Witness for C2: opposite signs, wraparound branch, width exactly 90. -/
theorem C2_angular_width_wraparound_witness :
    atan2 (latB 0) (lonB 0) * atan2 (latB 2) (lonB 2) < 0 ∧
    Real.pi < |atan2 (latB 0) (lonB 0)| + |atan2 (latB 2) (lonB 2)| ∧
    angular_width latB lonB = 90 := by
  have hp := Real.pi_pos
  have e0 : atan2 (latB 0) (lonB 0) = 3 * Real.pi / 4 := by
    rw [latB_zero]
    exact atan2_one_neg_one
  have e2 : atan2 (latB 2) (lonB 2) = -(3 * Real.pi / 4) := by
    rw [latB_two]
    exact atan2_neg_one_neg_one
  have hopp : atan2 (latB 0) (lonB 0) * atan2 (latB 2) (lonB 2) < 0 := by
    rw [e0, e2]
    nlinarith
  have habs : |atan2 (latB 0) (lonB 0)| + |atan2 (latB 2) (lonB 2)| =
      3 * Real.pi / 2 := by
    rw [e0, e2, abs_neg, abs_of_pos (by linarith)]
    ring
  have hgt : Real.pi < |atan2 (latB 0) (lonB 0)| + |atan2 (latB 2) (lonB 2)| := by
    rw [habs]
    linarith
  refine ⟨hopp, hgt, ?_⟩
  have h := ((C2_angular_width_wraparound latB lonB hopp).1 hgt).1
  rw [h, habs, abs_of_nonpos (by linarith : 3 * Real.pi / 2 - 2 * Real.pi ≤ 0)]
  field_simp
  ring

/-- `atan2 y x` vanishes exactly when the point lies on the nonnegative
`x`-axis (including the origin, where numpy returns 0). -/
lemma atan2_eq_zero_iff (y x : ℝ) : atan2 y x = 0 ↔ y = 0 ∧ 0 ≤ x := by
  have hp := Real.pi_pos
  have h1 := Real.arctan_lt_pi_div_two (y / x)
  have h2 := Real.neg_pi_div_two_lt_arctan (y / x)
  unfold atan2
  split_ifs with c1 c2 c3 c4 c5
  · rw [Real.arctan_eq_zero_iff, div_eq_zero_iff]
    constructor
    · rintro (hy | hx)
      · exact ⟨hy, c1.le⟩
      · exact absurd hx (ne_of_gt c1)
    · rintro ⟨hy, _⟩
      exact Or.inl hy
  · constructor
    · intro h
      exfalso
      linarith
    · rintro ⟨_, hx⟩
      exact absurd (lt_of_lt_of_le c2.1 hx) (lt_irrefl x)
  · constructor
    · intro h
      exfalso
      linarith
    · rintro ⟨_, hx⟩
      exact absurd (lt_of_lt_of_le c3.1 hx) (lt_irrefl x)
  · constructor
    · intro h
      exfalso
      linarith
    · rintro ⟨hy, _⟩
      exact absurd (hy ▸ c4.2) (lt_irrefl 0)
  · constructor
    · intro h
      exfalso
      linarith
    · rintro ⟨hy, _⟩
      exact absurd (hy ▸ c5.2) (lt_irrefl 0)
  · have hx0 : x = 0 := by
      rcases lt_trichotomy x 0 with hx | hx | hx
      · rcases le_or_lt 0 y with hy | hy
        · exact absurd ⟨hx, hy⟩ c2
        · exact absurd ⟨hx, hy⟩ c3
      · exact hx
      · exact absurd hx c1
    have hy0 : y = 0 := by
      rcases lt_trichotomy y 0 with hy | hy | hy
      · exact absurd ⟨hx0, hy⟩ c5
      · exact hy
      · exact absurd ⟨hx0, hy⟩ c4
    simp [hx0, hy0]

/-- Claim C10 (implicit): when the product of the two edge polar angles is
zero -- at least one edge lies on the reference direction (`lat = 0`,
`lon ≥ 0`) -- the else-path is taken and the width is
`(|phi_0| + |phi_2|)` in degrees, which here coincides with
`|phi_0 - phi_2|` in degrees. -/
theorem C10_angular_width_zero_angle (lat lon : Fin 3 → ℝ)
    (hz : atan2 (lat 0) (lon 0) * atan2 (lat 2) (lon 2) = 0) :
    ((lat 0 = 0 ∧ 0 ≤ lon 0) ∨ (lat 2 = 0 ∧ 0 ≤ lon 2)) ∧
    angular_width lat lon =
      (|atan2 (lat 0) (lon 0)| + |atan2 (lat 2) (lon 2)|) * 180 / Real.pi ∧
    angular_width lat lon =
      |atan2 (lat 0) (lon 0) - atan2 (lat 2) (lon 2)| * 180 / Real.pi := by
  have hno : ¬ 0 < atan2 (lat 0) (lon 0) * atan2 (lat 2) (lon 2) := by
    rw [hz]
    exact lt_irrefl 0
  have hb0 := abs_atan2_le_pi (lat 0) (lon 0)
  have hb2 := abs_atan2_le_pi (lat 2) (lon 2)
  have hsum : (0 : ℝ) ≤ |atan2 (lat 2) (lon 2)| + |atan2 (lat 0) (lon 0)| := by
    positivity
  rcases mul_eq_zero.mp hz with h0 | h0
  · have habs : |atan2 (lat 0) (lon 0)| = 0 := by
      rw [h0, abs_zero]
    have hle : ¬ Real.pi < |atan2 (lat 2) (lon 2)| + |atan2 (lat 0) (lon 0)| := by
      rw [habs]
      linarith
    refine ⟨Or.inl ((atan2_eq_zero_iff _ _).mp h0), ?_, ?_⟩
    · unfold angular_width aw_of_phi
      rw [if_neg hno, abs_of_nonneg hsum, if_neg hle, add_comm]
    · unfold angular_width aw_of_phi
      rw [if_neg hno, abs_of_nonneg hsum, if_neg hle, h0, abs_zero, add_zero,
        zero_sub, abs_neg]
  · have habs : |atan2 (lat 2) (lon 2)| = 0 := by
      rw [h0, abs_zero]
    have hle : ¬ Real.pi < |atan2 (lat 2) (lon 2)| + |atan2 (lat 0) (lon 0)| := by
      rw [habs]
      linarith
    refine ⟨Or.inr ((atan2_eq_zero_iff _ _).mp h0), ?_, ?_⟩
    · unfold angular_width aw_of_phi
      rw [if_neg hno, abs_of_nonneg hsum, if_neg hle, add_comm]
    · unfold angular_width aw_of_phi
      rw [if_neg hno, abs_of_nonneg hsum, if_neg hle, h0, abs_zero, zero_add,
        sub_zero]

/-- Latitudes of the C10 witness observation: the leading edge has zero
latitude. -/
noncomputable def latC : Fin 3 → ℝ := fun i => if i = 0 then 0 else 1

/-- Longitudes of the C10 witness observation. -/
noncomputable def lonC : Fin 3 → ℝ := fun i => if i = 0 then 1 else 0

lemma latC_zero : latC 0 = 0 := by
  unfold latC
  rw [if_pos rfl]

lemma latC_two : latC 2 = 1 := by
  unfold latC
  rw [if_neg (by decide)]

lemma lonC_zero : lonC 0 = 1 := by
  unfold lonC
  rw [if_pos rfl]

lemma lonC_two : lonC 2 = 0 := by
  unfold lonC
  rw [if_neg (by decide)]

/-- Witness for C10: leading edge on the reference direction, width 90. -/
theorem C10_angular_width_zero_angle_witness :
    atan2 (latC 0) (lonC 0) * atan2 (latC 2) (lonC 2) = 0 ∧
    ((latC 0 = 0 ∧ 0 ≤ lonC 0) ∨ (latC 2 = 0 ∧ 0 ≤ lonC 2)) ∧
    angular_width latC lonC = 90 := by
  have hp := Real.pi_pos
  have e0 : atan2 (latC 0) (lonC 0) = 0 := by
    rw [latC_zero, lonC_zero, atan2_pos_x 0 1 one_pos, zero_div,
      Real.arctan_zero]
  have e2 : atan2 (latC 2) (lonC 2) = Real.pi / 2 := by
    rw [latC_two, lonC_two, atan2_pos_y 1 one_pos]
  have hz : atan2 (latC 0) (lonC 0) * atan2 (latC 2) (lonC 2) = 0 := by
    rw [e0, zero_mul]
  obtain ⟨hd, heq, _⟩ := C10_angular_width_zero_angle latC lonC hz
  refine ⟨hz, hd, ?_⟩
  rw [heq, e0, e2, abs_zero, zero_add, abs_of_pos (by linarith)]
  field_simp
  ring

/-- Claim C3: the height of an observation is the center-point radius
`r_1 = sqrt (lat_1^2 + lon_1^2)` (arcseconds) converted to radians,
times `dsun`, divided by the solar-radius constant `6.957e8`; and for
fixed positive `dsun` the height is strictly increasing in `r_1`. -/
theorem C3_height_conversion (lat lon : Fin 3 → ℝ) (dsun r1 r1' : ℝ)
    (hd : 0 < dsun) (hr : r1 < r1') :
    h_rsun lat lon dsun =
      deg2rad (Real.sqrt (lat 1 ^ 2 + lon 1 ^ 2) / 3600) * dsun / 6.957e8 ∧
    h_rsun_of_r r1 dsun < h_rsun_of_r r1' dsun := by
  constructor
  · rfl
  · unfold h_rsun_of_r deg2rad solar_rad_in_m
    have hc : (0 : ℝ) < Real.pi / 180 := by positivity
    have h1 : r1 / 3600 < r1' / 3600 := by linarith
    have h2 : r1 / 3600 * (Real.pi / 180) < r1' / 3600 * (Real.pi / 180) :=
      mul_lt_mul_of_pos_right h1 hc
    have h3 : r1 / 3600 * (Real.pi / 180) * dsun <
        r1' / 3600 * (Real.pi / 180) * dsun :=
      mul_lt_mul_of_pos_right h2 hd
    have h4 : (0 : ℝ) < 6.957e8 := by norm_num
    exact div_lt_div_of_pos_right h3 h4

/-- Witness for C3 at a concrete observation (center point `(3, 4)`,
`dsun = 1`) and the concrete radii `0 < 1`. -/
theorem C3_height_conversion_witness :
    ((0 : ℝ) < 1 ∧ (0 : ℝ) < 1) ∧
    h_rsun (fun _ => 3) (fun _ => 4) 1 =
      deg2rad (Real.sqrt ((3 : ℝ) ^ 2 + (4 : ℝ) ^ 2) / 3600) * 1 / 6.957e8 ∧
    h_rsun_of_r 0 1 < h_rsun_of_r 1 1 := by
  obtain ⟨he, hm⟩ :=
    C3_height_conversion (fun _ => 3) (fun _ => 4) 1 0 1 one_pos one_pos
  exact ⟨⟨one_pos, one_pos⟩, he, hm⟩

/-! Kinematics: `np.diff`-based series (lines 107-109 and 138). -/

/-- `np.diff`: consecutive differences `xs[i+1] - xs[i]`, length one less
than the input. -/
def npDiff {α : Type} [Sub α] (xs : List α) : List α :=
  List.zipWith (fun a b => b - a) xs xs.tail

/-- Height series in kilometers: `np.array(h) * solar_rad_in_m / 1e3`
(line 107). -/
noncomputable def h_km (h : List ℝ) : List ℝ :=
  h.map (fun x => x * solar_rad_in_m / 1e3)

/-- Elapsed whole seconds between consecutive timestamps:
`np.diff(points.date).astype('timedelta64[s]').astype(int)` (line 108).
Timestamps are integer nanoseconds (`datetime64[ns]`); the cast to seconds
divides by `10^9` truncating toward zero (the diffs are nonnegative after
the sort by date, where truncation and floor agree). -/
def date_diff_sec (ts : List ℤ) : List ℤ :=
  (npDiff ts).map (fun d => Int.tdiv d 1000000000)

/-- Speed series `np.diff(h_km) / date_diff_sec` (line 109). -/
noncomputable def speed (h : List ℝ) (dts : List ℤ) : List ℝ :=
  List.zipWith (fun (dh : ℝ) (dt : ℤ) => dh / (dt : ℝ)) (npDiff (h_km h)) dts

/-- Local expansion-rate derivative `np.diff(aw) / np.diff(h)` (line 138). -/
noncomputable def dawdh (aw h : List ℝ) : List ℝ :=
  List.zipWith (fun da dh => da / dh) (npDiff aw) (npDiff h)

/-- `np.mean`: arithmetic mean; on an empty array numpy produces NaN (with
a warning, not an exception), modelled here as `none`. -/
noncomputable def npMean (xs : List ℝ) : Option ℝ :=
  if xs.isEmpty then none else some (xs.sum / xs.length)

/-- The per-event data reaching the speed computation: the event identifier
(from the csv file name), the height series and the timestamp series. -/
structure EventData where
  id : List Char
  h : List ℝ
  ts : List ℤ

/-- The entry `[event_id, np.mean(speed)]` appended to `all_mean_spped`
for one csv file (line 110). -/
noncomputable def mean_speed_entry (e : EventData) : List Char × Option ℝ :=
  (e.id, npMean (speed e.h (date_diff_sec e.ts)))

/-- The cross-event accumulator `all_mean_spped` (the script appends one
entry per csv file, unconditionally). -/
noncomputable def all_mean_spped (events : List EventData) :
    List (List Char × Option ℝ) :=
  events.map mean_speed_entry

/-! Indexing lemmas for the differenced series. -/

lemma getD_tail {α : Type} (xs : List α) (i : ℕ) (d : α) :
    xs.tail.getD i d = xs.getD (i + 1) d := by
  cases xs <;> simp [List.getD]

lemma getD_zipWith {α β γ : Type} (f : α → β → γ) (as : List α) (bs : List β)
    (i : ℕ) (da : α) (db : β) (dc : γ) (h1 : i < as.length) (h2 : i < bs.length) :
    (List.zipWith f as bs).getD i dc = f (as.getD i da) (bs.getD i db) := by
  induction as generalizing bs i with
  | nil => simp at h1
  | cons a as ih =>
    cases bs with
    | nil => simp at h2
    | cons b bs =>
      cases i with
      | zero => simp
      | succ n =>
        simp only [List.zipWith_cons_cons, List.getD_cons_succ]
        exact ih bs n (by simpa using h1) (by simpa using h2)

lemma getD_map {α β : Type} (f : α → β) (xs : List α) (i : ℕ) (da : α) (db : β)
    (h : i < xs.length) : (xs.map f).getD i db = f (xs.getD i da) := by
  induction xs generalizing i with
  | nil => simp at h
  | cons a as ih =>
    cases i with
    | zero => simp
    | succ n =>
      simp only [List.map_cons, List.getD_cons_succ]
      exact ih n (by simpa using h)

lemma npDiff_length {α : Type} [Sub α] (xs : List α) :
    (npDiff xs).length = xs.length - 1 := by
  unfold npDiff
  rw [List.length_zipWith, List.length_tail]
  omega

lemma npDiff_getD {α : Type} [Sub α] (xs : List α) (i : ℕ) (d : α)
    (h : i + 1 < xs.length) :
    (npDiff xs).getD i d = xs.getD (i + 1) d - xs.getD i d := by
  unfold npDiff
  rw [getD_zipWith _ xs xs.tail i d d d (by omega)
    (by rw [List.length_tail]; omega), getD_tail]

/-- Claim C4: for a series of length `n ≥ 2`, the speed series and the
local-derivative series have length exactly `n - 1`; `h_km` is the height
series scaled by `6.957e8 / 1e3`; element `i` of `date_diff_sec` is the
truncated whole-second gap, element `i` of `speed` is
`(h_km[i+1] - h_km[i]) / dt_i`, and element `i` of `dawdh` is
`(aw[i+1] - aw[i]) / (h[i+1] - h[i])`. -/
theorem C4_kinematics_series (h aw : List ℝ) (ts : List ℤ) (n : ℕ)
    (hh : h.length = n) (ha : aw.length = n) (ht : ts.length = n) (hn : 2 ≤ n) :
    (speed h (date_diff_sec ts)).length = n - 1 ∧
    (dawdh aw h).length = n - 1 ∧
    h_km h = h.map (fun x => x * 6.957e8 / 1e3) ∧
    (∀ i, i < n - 1 →
      (date_diff_sec ts).getD i 0 =
        Int.tdiv (ts.getD (i + 1) 0 - ts.getD i 0) 1000000000 ∧
      (speed h (date_diff_sec ts)).getD i 0 =
        ((h_km h).getD (i + 1) 0 - (h_km h).getD i 0) /
          (((date_diff_sec ts).getD i 0 : ℤ) : ℝ) ∧
      (dawdh aw h).getD i 0 =
        (aw.getD (i + 1) 0 - aw.getD i 0) / (h.getD (i + 1) 0 - h.getD i 0)) := by
  have hkm_len : (h_km h).length = n := by
    unfold h_km
    rw [List.length_map, hh]
  have hdts_len : (date_diff_sec ts).length = n - 1 := by
    unfold date_diff_sec
    rw [List.length_map, npDiff_length, ht]
  refine ⟨?_, ?_, rfl, ?_⟩
  · unfold speed
    rw [List.length_zipWith, npDiff_length, hkm_len, hdts_len]
    omega
  · unfold dawdh
    rw [List.length_zipWith, npDiff_length, npDiff_length, ha, hh]
    omega
  · intro i hi
    have hdts_i : (date_diff_sec ts).getD i 0 =
        Int.tdiv (ts.getD (i + 1) 0 - ts.getD i 0) 1000000000 := by
      unfold date_diff_sec
      rw [getD_map _ _ i 0 0 (by rw [npDiff_length]; omega),
        npDiff_getD ts i 0 (by omega)]
    refine ⟨hdts_i, ?_, ?_⟩
    · unfold speed
      rw [getD_zipWith _ _ _ i 0 0 0 (by rw [npDiff_length, hkm_len]; omega)
        (by rw [hdts_len]; omega), npDiff_getD (h_km h) i 0 (by rw [hkm_len]; omega)]
    · unfold dawdh
      rw [getD_zipWith _ _ _ i 0 0 0 (by rw [npDiff_length, ha]; omega)
        (by rw [npDiff_length, hh]; omega), npDiff_getD aw i 0 (by omega),
        npDiff_getD h i 0 (by omega)]

/-- Witness for C4: a two-point series one second apart. -/
theorem C4_kinematics_series_witness :
    ([(1 : ℝ), 2].length = 2 ∧ [(10 : ℝ), 20].length = 2 ∧
      [(0 : ℤ), 1000000000].length = 2 ∧ 2 ≤ 2) ∧
    (speed [1, 2] (date_diff_sec [0, 1000000000])).length = 2 - 1 ∧
    (dawdh [10, 20] [1, 2]).length = 2 - 1 ∧
    (speed [1, 2] (date_diff_sec [0, 1000000000])).getD 0 0 =
      ((h_km [1, 2]).getD 1 0 - (h_km [1, 2]).getD 0 0) /
        (((date_diff_sec [0, 1000000000]).getD 0 0 : ℤ) : ℝ) ∧
    (dawdh [10, 20] [1, 2]).getD 0 0 =
      (([(10 : ℝ), 20]).getD 1 0 - ([(10 : ℝ), 20]).getD 0 0) /
        (([(1 : ℝ), 2]).getD 1 0 - ([(1 : ℝ), 2]).getD 0 0) := by
  obtain ⟨hl1, hl2, _, helem⟩ :=
    C4_kinematics_series [1, 2] [10, 20] [0, 1000000000] 2 rfl rfl rfl le_rfl
  obtain ⟨_, hsp, hdw⟩ := helem 0 (by norm_num)
  exact ⟨⟨rfl, rfl, rfl, le_rfl⟩, hl1, hl2, hsp, hdw⟩

/-- Counterexample to claim C5: for an event with a single usable point the
speed computation does not fail -- it succeeds with an empty series --
`np.mean` of it is NaN (modelled `none`), and the event's entry is still
appended to the cross-event aggregate `all_mean_spped`. -/
theorem C5_single_point_counterexample :
    speed [(1 : ℝ)] (date_diff_sec [(0 : ℤ)]) = [] ∧
    npMean (speed [(1 : ℝ)] (date_diff_sec [(0 : ℤ)])) = none ∧
    all_mean_spped [⟨"id01".toList, [(1 : ℝ)], [(0 : ℤ)]⟩] =
      [("id01".toList, none)] :=
  ⟨rfl, rfl, rfl⟩

/-- Claim C5 amended: for an event series with fewer than 2 usable points
the speed series is empty rather than an error, its `np.mean` is NaN
(modelled `none`), the event's entry is nevertheless appended to the
cross-event aggregate, and every event in the batch contributes exactly one
entry (processing is not aborted). -/
theorem C5_short_series_behavior (h : List ℝ) (ts : List ℤ)
    (hlen : h.length < 2) (events : List EventData) (e : EventData)
    (he : e ∈ events) :
    speed h (date_diff_sec ts) = [] ∧
    npMean (speed h (date_diff_sec ts)) = none ∧
    mean_speed_entry e ∈ all_mean_spped events ∧
    (all_mean_spped events).length = events.length := by
  have hempty : npDiff (h_km h) = [] := by
    cases h with
    | nil => rfl
    | cons x h' =>
      cases h' with
      | nil => rfl
      | cons y h'' =>
        simp only [List.length_cons] at hlen
        omega
  have hs : speed h (date_diff_sec ts) = [] := by
    unfold speed
    rw [hempty]
    exact List.zipWith_nil_left
  refine ⟨hs, ?_, List.mem_map_of_mem mean_speed_entry he, List.length_map _ _⟩
  rw [hs]
  rfl

/-- Witness for the amended C5 at a concrete one-point event. -/
theorem C5_short_series_behavior_witness :
    ([(1 : ℝ)].length < 2 ∧
      (⟨"id01".toList, [(1 : ℝ)], [(0 : ℤ)]⟩ : EventData) ∈
        [(⟨"id01".toList, [(1 : ℝ)], [(0 : ℤ)]⟩ : EventData)]) ∧
    npMean (speed [(1 : ℝ)] (date_diff_sec [(0 : ℤ)])) = none ∧
    mean_speed_entry ⟨"id01".toList, [(1 : ℝ)], [(0 : ℤ)]⟩ ∈
      all_mean_spped [⟨"id01".toList, [(1 : ℝ)], [(0 : ℤ)]⟩] ∧
    (all_mean_spped [(⟨"id01".toList, [(1 : ℝ)], [(0 : ℤ)]⟩ : EventData)]).length =
      [(⟨"id01".toList, [(1 : ℝ)], [(0 : ℤ)]⟩ : EventData)].length := by
  obtain ⟨_, hm, hmem, hlen⟩ :=
    C5_short_series_behavior [(1 : ℝ)] [(0 : ℤ)] (by norm_num)
      [⟨"id01".toList, [(1 : ℝ)], [(0 : ℤ)]⟩]
      ⟨"id01".toList, [(1 : ℝ)], [(0 : ℤ)]⟩ (List.mem_singleton_self _)
  exact ⟨⟨by norm_num, List.mem_singleton_self _⟩, hm, hmem, hlen⟩

/-! Coordinate parsing (lines 48-56).  Raw fields are strings, modelled as
`List Char`. -/

/-- Python `str.split(s, c)` for a one-character separator: the pieces of
`s` between occurrences of `c` (always at least one piece, possibly empty,
like Python's `split`). -/
def splitOnChar (sep : Char) : List Char → List (List Char)
  | [] => [[]]
  | c :: rest =>
    if c = sep then [] :: splitOnChar sep rest
    else (c :: (splitOnChar sep rest).headD []) :: (splitOnChar sep rest).tail

/-- The substring the script isolates: `str.split(s, '[')[-1]` followed by
`str.split(.., ']')[0]` (lines 50-51 and 54-55): everything after the last
opening bracket and before the following closing bracket. -/
def bracketContent (s : List Char) : List Char :=
  (splitOnChar ']' ((splitOnChar '[' s).getLastD [])).headD []

/-- The comma-separated tokens of the bracketed substring (line 52's
`str.split(.., ',')`). -/
def tokens (s : List Char) : List (List Char) :=
  splitOnChar ',' (bracketContent s)

/-- Numeric value of a digit string. -/
def digitsVal (cs : List Char) : ℕ :=
  cs.foldl (fun n c => 10 * n + (c.toNat - 48)) 0

/-- Strip leading and trailing spaces (Python `float` ignores surrounding
whitespace). -/
def stripSpaces (cs : List Char) : List Char :=
  ((cs.dropWhile (fun c => c = ' ')).reverse.dropWhile (fun c => c = ' ')).reverse

/-- One token of `.astype(float)` (line 52): parse a signed plain decimal
numeral (the serialization format of the data), `none` when the token is
not such a numeral (numpy raises `ValueError` there).  Exact rational
values model the parsed floats. -/
def parseDecimal? (s : List Char) : Option ℚ :=
  let t := stripSpaces s
  let sgn : ℚ := if t.headD ' ' = '-' then -1 else 1
  let u := if t.headD ' ' = '-' ∨ t.headD ' ' = '+' then t.tail else t
  let ip := u.takeWhile Char.isDigit
  let r2 := u.dropWhile Char.isDigit
  match r2 with
  | [] => if ip.isEmpty then none else some (sgn * (digitsVal ip : ℚ))
  | '.' :: fr =>
    let fp := fr.takeWhile Char.isDigit
    let r3 := fr.dropWhile Char.isDigit
    if r3.isEmpty ∧ ¬(ip.isEmpty ∧ fp.isEmpty) then
      some (sgn * ((digitsVal ip : ℚ) + (digitsVal fp : ℚ) / 10 ^ fp.length))
    else none
  | _ => none

/-- All-or-nothing elementwise parse, the behavior of
`np.array(..).astype(float)`: every token must parse, else the whole
conversion fails. -/
def mapOpt {α β : Type} (f : α → Option β) : List α → Option (List β)
  | [] => some []
  | a :: as =>
    match f a, mapOpt f as with
    | some b, some bs => some (b :: bs)
    | _, _ => none

/-- The Coordinate Parser of the script (lines 50-52 resp. 54-56): isolate
the bracketed substring, split on commas, convert every token to a number. -/
def parseField (s : List Char) : Option (List ℚ) :=
  mapOpt parseDecimal? (tokens s)

lemma mapOpt_length {α β : Type} (f : α → Option β) (xs : List α) (ys : List β)
    (h : mapOpt f xs = some ys) : ys.length = xs.length := by
  induction xs generalizing ys with
  | nil =>
    simp only [mapOpt, Option.some.injEq] at h
    subst h
    rfl
  | cons a as ih =>
    cases hfa : f a with
    | none => simp [mapOpt, hfa] at h
    | some b =>
      cases hma : mapOpt f as with
      | none => simp [mapOpt, hfa, hma] at h
      | some bs =>
        simp only [mapOpt, hfa, hma, Option.some.injEq] at h
        subst h
        simp [ih bs hma]

/-- Counterexample to claim C8: a raw field holding only two values parses
successfully to a length-2 sequence -- the parser enforces no length-3
arity and does not fail on short fields. -/
theorem C8_two_value_field_counterexample :
    parseField ("[1.0,2.0]".toList) = some [1, 2] ∧
    [(1 : ℚ), 2].length = 2 := by
  have h : parseField ("[1.0,2.0]".toList) =
      some [(1 : ℚ) * (((1 : ℕ) : ℚ) + ((0 : ℕ) : ℚ) / 10 ^ 1),
            (1 : ℚ) * (((2 : ℕ) : ℚ) + ((0 : ℕ) : ℚ) / 10 ^ 1)] := rfl
  refine ⟨?_, rfl⟩
  rw [h]
  norm_num

/-- Claim C8 amended: the parser returns one numeric value per
comma-separated token of the bracketed substring -- the output length
equals the token count, with no length-3 check -- and fails only when some
token is not parseable as a number. -/
theorem C8_parser_token_count (s : List Char) (l : List ℚ)
    (hp : parseField s = some l) : l.length = (tokens s).length := by
  unfold parseField at hp
  exact mapOpt_length _ _ _ hp

/-- Witness for the amended C8 on a well-formed 3-value field. -/
theorem C8_parser_token_count_witness :
    parseField ("[1.0,2.0,3.0]".toList) = some [1, 2, 3] ∧
    [(1 : ℚ), 2, 3].length = (tokens ("[1.0,2.0,3.0]".toList)).length := by
  have h : parseField ("[1.0,2.0,3.0]".toList) =
      some [(1 : ℚ) * (((1 : ℕ) : ℚ) + ((0 : ℕ) : ℚ) / 10 ^ 1),
            (1 : ℚ) * (((2 : ℕ) : ℚ) + ((0 : ℕ) : ℚ) / 10 ^ 1),
            (1 : ℚ) * (((3 : ℕ) : ℚ) + ((0 : ℕ) : ℚ) / 10 ^ 1)] := rfl
  have hp : parseField ("[1.0,2.0,3.0]".toList) = some [1, 2, 3] := by
    rw [h]
    norm_num
  exact ⟨hp, C8_parser_token_count _ _ hp⟩

/-! Row filtering (lines 39-45). -/

/-- One row of a points csv: the source image name, the raw bracketed
latitude and longitude strings, and the observer distance `dsun [m]`. -/
structure Row where
  file : List Char
  lat : List Char
  lon : List Char
  dsun : ℝ

/-- Substring test for the empty-bracket marker, modelling the pandas
filter `str.contains('\x5b\x5d')` of line 40 (a regex matching the literal
two-character substring). -/
def containsEmptyBrackets : List Char → Bool
  | '[' :: ']' :: _ => true
  | _ :: rest => containsEmptyBrackets rest
  | [] => false

/-- Line 40: keep only the rows whose raw latitude field does not contain
the empty-bracket marker. -/
def filteredRows (rows : List Row) : List Row :=
  rows.filter (fun r => !containsEmptyBrackets r.lat)

/-- Parsed coordinates of a row as a triple (the script indexes the parsed
array at 0, 1, 2; a row that fails to parse or has fewer than 3 values
would crash the script, so the `getD` defaults are never exercised on rows
the script actually processes). -/
noncomputable def coordsToFin3 (l : List ℚ) : Fin 3 → ℝ :=
  fun i => ((l.getD (i : ℕ) 0 : ℚ) : ℝ)

/-- Angular width of one surviving row (the per-row loop body, lines 48-68). -/
noncomputable def row_aw (r : Row) : ℝ :=
  angular_width (coordsToFin3 ((parseField r.lat).getD []))
    (coordsToFin3 ((parseField r.lon).getD []))

/-- Height of one surviving row (lines 70-72). -/
noncomputable def row_h (r : Row) : ℝ :=
  h_rsun (coordsToFin3 ((parseField r.lat).getD []))
    (coordsToFin3 ((parseField r.lon).getD [])) r.dsun

/-- The per-event angular-width series `aw`: the geometry is applied only
to the filtered rows. -/
noncomputable def event_aw_series (rows : List Row) : List ℝ :=
  (filteredRows rows).map row_aw

/-- The per-event height series `h`: the geometry is applied only to the
filtered rows. -/
noncomputable def event_h_series (rows : List Row) : List ℝ :=
  (filteredRows rows).map row_h

/-- Claim C6: a row whose raw latitude field carries the empty-bracket
marker is removed by the line-40 filter: it is absent from the filtered
rows, every surviving row is marker-free, and the geometry series (hence
every downstream mean and fit) are computed from the filtered rows only. -/
theorem C6_empty_rows_dropped (rows : List Row) (r : Row)
    (hmark : containsEmptyBrackets r.lat = true) :
    r ∉ filteredRows rows ∧
    (∀ r' ∈ filteredRows rows, containsEmptyBrackets r'.lat = false) ∧
    event_aw_series rows = (filteredRows rows).map row_aw ∧
    event_h_series rows = (filteredRows rows).map row_h := by
  refine ⟨?_, ?_, rfl, rfl⟩
  · intro hmem
    unfold filteredRows at hmem
    have hkeep := List.of_mem_filter hmem
    rw [hmark] at hkeep
    simp at hkeep
  · intro r' hr'
    unfold filteredRows at hr'
    have hkeep := List.of_mem_filter hr'
    simpa using hkeep

/-- The row with an empty latitude list used by the C6 witness. -/
noncomputable def emptyLatRow : Row :=
  ⟨[], "[]".toList, [], 0⟩

/-- Witness for C6: the empty-marker row is filtered out and the event
series of a table holding only that row is empty. -/
theorem C6_empty_rows_dropped_witness :
    containsEmptyBrackets emptyLatRow.lat = true ∧
    emptyLatRow ∉ filteredRows [emptyLatRow] ∧
    event_aw_series [emptyLatRow] = [] := by
  have hmark : containsEmptyBrackets emptyLatRow.lat = true := by decide
  obtain ⟨hnot, _, _, _⟩ := C6_empty_rows_dropped [emptyLatRow] emptyLatRow hmark
  exact ⟨hmark, hnot, rfl⟩

/-! Cross-event aggregation (lines 193-213). -/

/-- `np.polyfit(x, y, 1)`, modelled as the ordinary-least-squares line
`(slope, intercept)` through the points, via the normal equations (this is
the unique least-squares solution whenever the `x` values are not all
equal, the situation of the script's data). -/
noncomputable def polyfit1 (x y : List ℝ) : ℝ × ℝ :=
  let n : ℝ := x.length
  let sx := x.sum
  let sy := y.sum
  let sxx := (x.map (fun t => t * t)).sum
  let sxy := (List.zipWith (fun a b => a * b) x y).sum
  ((n * sxy - sx * sy) / (n * sxx - sx * sx),
    (sxx * sy - sx * sxy) / (n * sxx - sx * sx))

/-- Line 196: the secondary cross-event fit of intercept `b` against slope
`m` over the rows of `all_aw_fit_par` (each row a pair `(m, b)` of one
event's angular-width-vs-height fit). -/
noncomputable def global_bm_fit (fitpar : List (ℝ × ℝ)) : ℝ × ℝ :=
  polyfit1 (fitpar.map Prod.fst) (fitpar.map Prod.snd)

/-- Line 209: the reference height `ho = np.abs(m) + 1`, where `m` is the
slope of the secondary fit. -/
noncomputable def ho (fitpar : List (ℝ × ℝ)) : ℝ :=
  |(global_bm_fit fitpar).1| + 1

/-- Line 210: each event's fitted angular width evaluated at the reference
height, `aw_at_1rs = m_event * ho + b_event`. -/
noncomputable def aw_at_1rs (fitpar : List (ℝ × ℝ)) : List ℝ :=
  fitpar.map (fun p => p.1 * ho fitpar + p.2)

/-- Line 213: the final fit of the evaluated values against the per-event
slopes. -/
noncomputable def fit_of_fits (fitpar : List (ℝ × ℝ)) : ℝ × ℝ :=
  polyfit1 (fitpar.map Prod.fst) (aw_at_1rs fitpar)

/-- Claim C7: the Cross-Event Aggregator fits intercept vs. slope across
events, sets `h0 = |global_m| + 1` from that fit's slope, evaluates each
event's fitted width at `h0` as `m_event * h0 + b_event`, and fits those
values against the per-event slopes. -/
theorem C7_cross_event_fit_of_fits (fitpar : List (ℝ × ℝ)) :
    ho fitpar = |(polyfit1 (fitpar.map Prod.fst) (fitpar.map Prod.snd)).1| + 1 ∧
    (∀ i, i < fitpar.length →
      (aw_at_1rs fitpar).getD i 0 =
        (fitpar.getD i (0, 0)).1 * ho fitpar + (fitpar.getD i (0, 0)).2) ∧
    fit_of_fits fitpar =
      polyfit1 (fitpar.map Prod.fst)
        (fitpar.map (fun p => p.1 * ho fitpar + p.2)) := by
  refine ⟨rfl, ?_, rfl⟩
  intro i hi
  unfold aw_at_1rs
  rw [getD_map (fun p => p.1 * ho fitpar + p.2) fitpar i (0, 0) 0 hi]

/-- Witness for C7 at a concrete two-event table of fit parameters:
the global b-vs-m fit of `[(1, 2), (3, 4)]` has slope 1, so `h0 = 2`, and
the first event's evaluated width is `1 * 2 + 2 = 4`. -/
theorem C7_cross_event_fit_of_fits_witness :
    (0 < [((1 : ℝ), (2 : ℝ)), (3, 4)].length) ∧
    ho [((1 : ℝ), (2 : ℝ)), (3, 4)] = 2 ∧
    (aw_at_1rs [((1 : ℝ), (2 : ℝ)), (3, 4)]).getD 0 0 =
      ([((1 : ℝ), (2 : ℝ)), (3, 4)].getD 0 (0, 0)).1 *
          ho [((1 : ℝ), (2 : ℝ)), (3, 4)] +
        ([((1 : ℝ), (2 : ℝ)), (3, 4)].getD 0 (0, 0)).2 ∧
    fit_of_fits [((1 : ℝ), (2 : ℝ)), (3, 4)] =
      polyfit1 ([((1 : ℝ), (2 : ℝ)), (3, 4)].map Prod.fst)
        ([((1 : ℝ), (2 : ℝ)), (3, 4)].map
          (fun p => p.1 * ho [((1 : ℝ), (2 : ℝ)), (3, 4)] + p.2)) := by
  obtain ⟨_, helem, hfit⟩ :=
    C7_cross_event_fit_of_fits [((1 : ℝ), (2 : ℝ)), (3, 4)]
  refine ⟨by norm_num, ?_, helem 0 (by norm_num), hfit⟩
  norm_num [ho, global_bm_fit, polyfit1]

end AnalyzePoints
